import Mathlib

/-!
LiveClaw — formal model of the message-interception-and-voice-routing pipeline

A shallow embedding, in Lean 4, of the core components of the LiveClaw
repository: the speech-text sanitizer and classifier (`classifier.py`), the
pattern matcher (`patterns.py`), the TTS engine (`tts_engine.py`), the audio
library (`audio_library.py`) and the interceptor pipeline (`interceptor.py`).

Modelling conventions:
* Python strings are modelled as Lean `String` / `List Char`.  Whitespace is
  the ASCII whitespace set recognised by Python's `\s` and `str.strip`
  (space, tab, newline, carriage return, vertical tab, form feed); non-ASCII
  whitespace is out of scope of the model.
* The regex substitutions of `MessageClassifier._clean_for_speech` are
  implemented as direct character scanners with the exact leftmost,
  backtracking semantics of CPython's `re.sub` for those fixed patterns.
  Each scanner takes a fuel argument (any fuel at least the input length
  gives the scanner's total behaviour); wrappers pass the input length.
* Network calls, filesystem state and subprocess outcomes are inputs to the
  model (e.g. the LLM outcome is an `Option` parameter, the filesystem is a
  `String → Bool` predicate), so each function under specification is a pure,
  executable Lean function.
-/

/-! Section: Python string primitives -/

/-- The backtick character (code point 96). -/
def tickChar : Char := Char.ofNat 96

/-- Python's ASCII whitespace class: the characters matched by `\s` and
stripped by `str.strip` (restricted to ASCII). -/
def isPySpace (c : Char) : Bool :=
  c = ' ' || c = '\t' || c = '\n' || c = '\r' || c = '\x0b' || c = '\x0c'

/-- Python `str.strip()` on a character list: drop leading and trailing
whitespace. -/
def pyStripL (l : List Char) : List Char :=
  (l.dropWhile isPySpace).rdropWhile isPySpace

/-- Python `str.strip()` on strings. -/
def pyStrip (s : String) : String := ⟨pyStripL s.data⟩

/-! Section: `MessageClassifier._clean_for_speech` (classifier.py lines 144-164)

The seven `re.sub` stages, in source order. -/

/-- Stage 1 helper: split a character list at the first occurrence of three
consecutive backticks; returns the part strictly after the closing triple.
Models the lazy body of `re.sub(r"```[\s\S]*?```", "", text)`. -/
def splitTriple : Nat → List Char → Option (List Char)
  | 0, _ => none
  | _, [] => none
  | fuel + 1, c :: cs =>
    if c = tickChar then
      match cs with
      | c2 :: c3 :: rest =>
        if c2 = tickChar ∧ c3 = tickChar then some rest
        else splitTriple fuel cs
      | _ => none
    else splitTriple fuel cs

/-- Stage 1: `re.sub(r"```[\s\S]*?```", "", text)` — remove fenced code
blocks (lazy: each opening fence pairs with the next closing fence). -/
def cbSub : Nat → List Char → List Char
  | 0, l => l
  | _, [] => []
  | fuel + 1, c :: cs =>
    if c = tickChar then
      match cs with
      | c2 :: c3 :: rest =>
        if c2 = tickChar ∧ c3 = tickChar then
          match splitTriple rest.length rest with
          | some after => cbSub fuel after
          | none => c :: cbSub fuel cs
        else c :: cbSub fuel cs
      | _ => c :: cbSub fuel cs
    else c :: cbSub fuel cs

/-- Stage 2: `re.sub(r"`[^`]+`", "", text)` — remove inline code spans
(a backtick, one or more non-backticks, a backtick). -/
def icSub : Nat → List Char → List Char
  | 0, l => l
  | _, [] => []
  | fuel + 1, c :: cs =>
    if c = tickChar then
      let inner := cs.takeWhile (fun x => x ≠ tickChar)
      let rest := cs.dropWhile (fun x => x ≠ tickChar)
      match rest with
      | [] => c :: icSub fuel cs
      | _ :: rest2 =>
        if inner.isEmpty then c :: icSub fuel cs
        else icSub fuel rest2
    else c :: icSub fuel cs

/-- Does the list start with a Python whitespace character? -/
def pySpaceHead : List Char → Bool
  | [] => false
  | c :: _ => isPySpace c

/-- Stage 3: `re.sub(r"^#{1,6}\s+", "", text, flags=re.MULTILINE)` — remove
markdown header markers at line starts.  The Boolean argument records
whether the current scan position is a line start (`^` in MULTILINE mode);
after a removal the next position is a line start exactly when the last
consumed whitespace character was a newline. -/
def hdrSub : Nat → Bool → List Char → List Char
  | 0, _, l => l
  | _, _, [] => []
  | fuel + 1, atStart, c :: cs =>
    if atStart && c = '#' then
      let hs := (c :: cs).takeWhile (fun x => x = '#')
      let rest := (c :: cs).dropWhile (fun x => x = '#')
      if hs.length ≤ 6 && pySpaceHead rest then
        let ws := rest.takeWhile isPySpace
        let rest2 := rest.dropWhile isPySpace
        hdrSub fuel (ws.getLast? == some '\n') rest2
      else c :: hdrSub fuel false cs
    else c :: hdrSub fuel (c = '\n') cs

/-- Emphasis marker character: `*` or `_`. -/
def isEmph (c : Char) : Bool := c = '*' || c = '_'

/-- Stage 4: `re.sub(r"[*_]{1,3}([^*_]+)[*_]{1,3}", r"\1", text)` — collapse
bold/italic emphasis to the inner text.  A match needs an opening run of at
most three marker characters (a longer run shifts the match right, leaving
the surplus emitted), a nonempty inner run of non-markers, and a closing
marker; the greedy closing consumes at most three markers. -/
def emphSub : Nat → List Char → List Char
  | 0, l => l
  | _, [] => []
  | fuel + 1, c :: cs =>
    if isEmph c then
      let r := (c :: cs).takeWhile isEmph
      let rest1 := (c :: cs).dropWhile isEmph
      let inner := rest1.takeWhile (fun x => ¬ isEmph x)
      let rest2 := rest1.dropWhile (fun x => ¬ isEmph x)
      if inner.isEmpty ∨ rest2.isEmpty then
        r ++ inner ++ emphSub fuel rest2
      else
        let k2 := min ((rest2.takeWhile isEmph).length) 3
        r.take (r.length - 3) ++ inner ++ emphSub fuel (rest2.drop k2)
    else c :: emphSub fuel cs

/-- Stage 5: `re.sub(r"\[([^\]]+)\]\([^)]+\)", r"\1", text)` — replace
markdown links `[label](url)` by `label`. -/
def linkSub : Nat → List Char → List Char
  | 0, l => l
  | _, [] => []
  | fuel + 1, c :: cs =>
    if c = '[' then
      let label := cs.takeWhile (fun x => x ≠ ']')
      let rest := cs.dropWhile (fun x => x ≠ ']')
      match rest with
      | _ :: '(' :: rest3 =>
        let url := rest3.takeWhile (fun x => x ≠ ')')
        let rest4 := rest3.dropWhile (fun x => x ≠ ')')
        if label.isEmpty ∨ url.isEmpty then c :: linkSub fuel cs
        else
          match rest4 with
          | _ :: rest5 => label ++ linkSub fuel rest5
          | [] => c :: linkSub fuel cs
      | _ => c :: linkSub fuel cs
    else c :: linkSub fuel cs

/-- Stage 6: `re.sub(r"https?://\S+", "", text)` — remove bare URLs: a
literal `http://` or `https://` prefix followed by at least one
non-whitespace character; greedy up to the next whitespace. -/
def urlSub : Nat → List Char → List Char
  | 0, l => l
  | _, [] => []
  | fuel + 1, c :: cs =>
    if ("http://".data.isPrefixOf (c :: cs)) then
      let rest := (c :: cs).drop 7
      match rest with
      | r :: _ =>
        if isPySpace r then c :: urlSub fuel cs
        else urlSub fuel (rest.dropWhile (fun x => ¬ isPySpace x))
      | [] => c :: urlSub fuel cs
    else if ("https://".data.isPrefixOf (c :: cs)) then
      let rest := (c :: cs).drop 8
      match rest with
      | r :: _ =>
        if isPySpace r then c :: urlSub fuel cs
        else urlSub fuel (rest.dropWhile (fun x => ¬ isPySpace x))
      | [] => c :: urlSub fuel cs
    else c :: urlSub fuel cs

/-- Stage 7 (first half): `re.sub(r"\s+", " ", text)` — collapse every
whitespace run to a single space. -/
def wsCollapse : Nat → List Char → List Char
  | 0, l => l
  | _, [] => []
  | fuel + 1, c :: cs =>
    if isPySpace c then ' ' :: wsCollapse fuel (cs.dropWhile isPySpace)
    else c :: wsCollapse fuel cs

/-- Model of `MessageClassifier._clean_for_speech` on character lists: the seven
stages in source order (code blocks, inline code, headers, emphasis, links,
URLs, whitespace collapse + strip). -/
def cleanList (l : List Char) : List Char :=
  let l1 := cbSub l.length l
  let l2 := icSub l1.length l1
  let l3 := hdrSub l2.length true l2
  let l4 := emphSub l3.length l3
  let l5 := linkSub l4.length l4
  let l6 := urlSub l5.length l5
  pyStripL (wsCollapse l6.length l6)

/-- Model of `MessageClassifier._clean_for_speech` (classifier.py lines 144-164). -/
def clean_for_speech (s : String) : String := ⟨cleanList s.data⟩

example : clean_for_speech "**Result:** see https://x.test" = "Result: see" := by decide
example : clean_for_speech "  hello   world  " = "hello world" := by decide
example : clean_for_speech "# # x" = "# x" := by decide
example : clean_for_speech "# x" = "x" := by decide
example : clean_for_speech "****a****" = "*a*" := by decide
example : clean_for_speech "[a](b)c" = "ac" := by decide
example : clean_for_speech "a\n## b" = "a b" := by decide
example : emphSub 9 "*a*****b*".data = "ab".data := by decide
example : emphSub 6 "*a****".data = "a*".data := by decide
example : emphSub 5 "*a*b*".data = "ab*".data := by decide
example : emphSub 4 "****".data = "****".data := by decide
example : emphSub 6 "*a*_b_".data = "ab_".data := by decide
example : emphSub 5 "_*a*_".data = "a".data := by decide
example : hdrSub 2 true "#x".data = "#x".data := by decide
example : hdrSub 9 true "####### x".data = "####### x".data := by decide
example : hdrSub 7 true "# a # b".data = "a # b".data := by decide
example : hdrSub 6 true "# \n# x".data = "x".data := by decide
example : linkSub 12 "[a](b)c[d](e)".data = "acd".data := by decide
example : linkSub 5 "[](b)".data = "[](b)".data := by decide
example : linkSub 8 "[[a]](b)".data = "[[a]](b)".data := by decide
example : linkSub 7 "[a](b))".data = "a)".data := by decide
example : urlSub 10 "http://a b".data = " b".data := by decide
example : urlSub 8 "https://".data = "https://".data := by decide
example : urlSub 10 "xhttps://y".data = "x".data := by decide
example : cbSub 7 "``````x".data = "x".data := by decide
example : cbSub 9 "```a`b```".data = [] := by decide
example : cbSub 4 "````".data = "````".data := by decide
example : icSub 6 "`a``b`".data = [] := by decide
example : icSub 2 "``".data = "``".data := by decide
example : clean_for_speech "`` `x` ``" = "`x`" := by decide

/-! Section: Pattern matcher (`patterns.py`)

A compiled pattern is modelled as a Boolean matcher on the (trimmed) text —
`pattern.search(text)` returning truthy.  The pattern table is the ordered
list of `(intent key, patterns)` pairs over which `match` iterates
(`_compiled.items()`, Python dicts preserve insertion order). -/

/-- A compiled regular expression, abstracted to its `search` behaviour. -/
abbrev Pat := String → Bool

/-- Model of `patterns.match` (patterns.py lines 89-103): trim, bail out on empty,
then scan intents in declaration order and patterns in order, returning the
first intent key one of whose patterns matches. -/
def patternsMatch (tbl : List (String × List Pat)) (text : String) : Option String :=
  let t := pyStrip text
  if t.isEmpty then none
  else tbl.findSome? (fun kp => if kp.2.any (fun p => p t) then some kp.1 else none)

/-! Section: Message classifier (`classifier.py`) -/

/-- A classification result: `{"action": "library", "key": k}` or
`{"action": "tts", "text": t}`. -/
inductive ClassResult where
  | library (key : String)
  | tts (text : String)
deriving DecidableEq

/-- The observable outcome of `MessageClassifier.classify`: the returned
result and whether the remote LLM call was made. -/
structure ClassifyOut where
  result : ClassResult
  llmCalled : Bool
deriving DecidableEq

/-- Model of `MessageClassifier.classify` (classifier.py lines 52-75).  The remote
call's outcome is the parameter `llm`: `none` models timeout, any provider
exception, or an unparseable/invalid response (all of which
`_classify_llm` / `_parse_llm_response` turn into `None`); `some r` models a
successfully parsed result.  The function is total: no exception reaches
the caller. -/
def classify (tbl : List (String × List Pat)) (llm : Option ClassResult)
    (text : String) : ClassifyOut :=
  if (pyStrip text).isEmpty then ⟨.tts "", false⟩
  else
    match patternsMatch tbl text with
    | some key => ⟨.library key, false⟩
    | none =>
      match llm with
      | some r => ⟨r, true⟩
      | none => ⟨.tts (clean_for_speech text), true⟩

/-! Section: TTS engine (`tts_engine.py`) -/

namespace TTSEngine

/-- Outcome of `asyncio.wait_for(self._provider.synthesize(text), ...)`:
timeout, a provider exception, or a normal return (which itself may be
`None`). -/
inductive ProvOutcome where
  | timeout
  | exn
  | ok (path : Option String)
deriving DecidableEq

/-- Outcome of the ffmpeg subprocess in `_convert_to_ogg`: an exit code, or
`FileNotFoundError` (ffmpeg not installed). -/
inductive ConvOutcome where
  | exit (code : Int)
  | notFound
deriving DecidableEq

/-- Observable outcome of `TTSEngine.generate`: the returned path, whether
the provider was invoked, and which temporary files were removed. -/
structure GenResult where
  ret : Option String
  provInvoked : Bool
  removed : List String
deriving DecidableEq

/-- Model of `_convert_to_ogg` (tts_engine.py lines 350-380): returns the `.ogg`
path on exit code 0; on nonzero exit or missing ffmpeg it unlinks the
`.ogg` temp file and returns `None`.  Returns (result, removed files). -/
def convertToOgg (conv : ConvOutcome) (oggPath : String) :
    Option String × List String :=
  match conv with
  | .exit code => if code = 0 then (some oggPath, []) else (none, [oggPath])
  | .notFound => (none, [oggPath])

/-- Model of `TTSEngine.generate` (tts_engine.py lines 305-336): empty/whitespace
text short-circuits to `None` without invoking the provider; timeout and
provider exceptions give `None`; a raw synthesis result is transcoded, with
fallback to the raw file when transcoding fails; on transcoding success the
raw file is unlinked and the `.ogg` file returned. -/
def generate (text : String) (prov : ProvOutcome) (conv : ConvOutcome)
    (oggPath : String) : GenResult :=
  if (pyStrip text).isEmpty then ⟨none, false, []⟩
  else
    match prov with
    | .timeout => ⟨none, true, []⟩
    | .exn => ⟨none, true, []⟩
    | .ok none => ⟨none, true, []⟩
    | .ok (some raw) =>
      match convertToOgg conv oggPath with
      | (none, rem) => ⟨some raw, true, rem⟩
      | (some ogg, rem) => ⟨some ogg, true, rem ++ [raw]⟩

end TTSEngine

/-! Section: Audio library (`audio_library.py`) -/

/-- A manifest entry: `{file, description, examples, tts_text}`. -/
structure ManifestEntry where
  file : String
  description : String
  examples : List String
  tts_text : String
deriving DecidableEq

/-- The manifest: an insertion-ordered mapping from intent key to entry. -/
abbrev Manifest := List (String × ManifestEntry)

namespace AudioLibrary

/-- Model of `AudioLibrary.load` (audio_library.py lines 24-57).  `manifestExists`
models `self._manifest_path.exists()`; `parsed` models the result of
`json.load` (`none` for `JSONDecodeError`/`OSError`); `fs` is the
filesystem predicate used by the validation pass (which only counts and
logs missing audio files).  Returns (success, stored manifest, number of
missing clips). -/
def load (manifestExists : Bool) (parsed : Option Manifest)
    (fs : String → Bool) (libraryDir : String) : Bool × Manifest × Nat :=
  if !manifestExists then (false, [], 0)
  else
    match parsed with
    | none => (false, [], 0)
    | some m =>
      let missing := (m.filter (fun kv => !fs (libraryDir ++ "/" ++ kv.2.file))).length
      (true, m, missing)

/-- Model of `AudioLibrary.get` (audio_library.py lines 59-72): look the key up in
the manifest, then check the audio file's existence on disk at lookup time;
`none` when the key is unknown or the file does not (currently) exist. -/
def get (m : Manifest) (libraryDir : String) (fs : String → Bool)
    (key : String) : Option String :=
  match m.find? (fun kv => kv.1 = key) with
  | none => none
  | some kv =>
    let p := libraryDir ++ "/" ++ kv.2.file
    if fs p then some p else none

end AudioLibrary

/-! Section: Interceptor (`interceptor.py`) -/

namespace Interceptor

/-- Python slicing `s[:n]`: the first `n` code points. -/
def pySlice (n : Nat) (s : String) : String := ⟨s.data.take n⟩

/-- Fingerprint of a message text: the first 100 characters of the trimmed
text (`text.strip()[:100]`), used as the Pending Deletion Map key. -/
def fingerprint (t : String) : String := pySlice 100 (pyStrip t)

/-- The Pending Deletion Map `_bot_msg_ids`: an insertion-ordered dict from
fingerprint to `(chat id, message id)`. -/
abbrev PendMap := List (String × Int × Int)

/-- Python dict assignment `m[k] = v`: replace in place when the key is
present, else append. -/
def dictSet (m : PendMap) (k : String) (v : Int × Int) : PendMap :=
  if m.any (fun kv => kv.1 = k) then
    m.map (fun kv => if kv.1 = k then (k, v) else kv)
  else m ++ [(k, v)]

/-- Python dict lookup `m.get(k)` / `k in m`. -/
def dictGet (m : PendMap) (k : String) : Option (Int × Int) :=
  (m.find? (fun kv => kv.1 = k)).map (fun kv => kv.2)

/-- Python dict `m.pop(k)`: the remaining map. -/
def dictErase (m : PendMap) (k : String) : PendMap :=
  m.filter (fun kv => kv.1 ≠ k)

/-- Model of `on_bot_outgoing` (interceptor.py lines 85-91): on a text message
observed on the bot client's own outgoing stream, record
`(chat id, message id)` under the text's fingerprint.  `none` / `""` model
a falsy `message.text` (early return). -/
def onBotOutgoing (m : PendMap) (text : Option String) (chatId msgId : Int) :
    PendMap :=
  match text with
  | none => m
  | some t => if t.isEmpty then m else dictSet m (fingerprint t) (chatId, msgId)

/-- A message as seen when scanning chat history (`get_chat_history`). -/
structure HistMsg where
  fromUser : Option Int
  text : Option String
  id : Int
deriving DecidableEq

/-- A platform deletion call issued by `_delete_message`: via the mapped
bot-side ID, or via the userbot history-scan fallback. -/
inductive DelCall where
  | viaMap (chatId msgId : Int)
  | viaHist (chatId msgId : Int)
deriving DecidableEq

/-- The history-scan predicate (interceptor.py lines 165-166): the message
is from the watched bot, has truthy text, and its fingerprint equals the
key. -/
def histMatch (botUserId : Int) (key : String) (msg : HistMsg) : Bool :=
  msg.fromUser == some botUserId &&
    (match msg.text with
     | some t => !t.isEmpty && fingerprint t == key
     | none => false)

/-- The poll loop of `_delete_message` (`for _ in range(20)` with a 0.1 s
sleep): `maps i` is the Pending Deletion Map state observed at poll
iteration `i` (it is written concurrently by `on_bot_outgoing`).  Returns
the first iteration at which the fingerprint is present, with the mapped
`(chat id, message id)`. -/
def pollLoop (key : String) (maps : Nat → PendMap) : Nat → Nat → Option (Nat × Int × Int)
  | _, 0 => none
  | i, fuel + 1 =>
    match dictGet (maps i) key with
    | some (c, mId) => some (i, c, mId)
    | none => pollLoop key maps (i + 1) fuel

/-- Observable outcome of `_delete_message`: the platform delete calls
issued, and (on a poll hit) the map state right after the `pop`. -/
structure DelOut where
  calls : List DelCall
  mapAfter : Option PendMap
deriving DecidableEq

/-- Model of `MessageInterceptor._delete_message` (interceptor.py lines 137-171):
poll the Pending Deletion Map for the fingerprint for up to 20 iterations;
on a hit, pop the entry and delete by the mapped ID (a failing delete is
logged and the routine returns — no retry); on a miss, scan the last five
messages of the target chat's history and delete the first text match (a
failure there is likewise only logged). -/
def deleteMessage (text : String) (maps : Nat → PendMap) (history : List HistMsg)
    (targetChatId botUserId : Int) : DelOut :=
  let key := fingerprint text
  match pollLoop key maps 0 20 with
  | some (i, c, mId) => ⟨[.viaMap c mId], some (dictErase (maps i) key)⟩
  | none =>
    match (history.take 5).find? (histMatch botUserId key) with
    | some msg => ⟨[.viaHist targetChatId msg.id], none⟩
    | none => ⟨[], none⟩

/-- Model of `collections.deque(maxlen=cap).append`: append on the right, evicting
from the left when over capacity. -/
def dequeAppend (cap : Nat) (xs : List Int) (x : Int) : List Int :=
  let ys := xs ++ [x]
  if cap < ys.length then ys.drop (ys.length - cap) else ys

/-- A queued work item `(text, chat_id, timestamp)`. -/
structure WorkItem where
  text : String
  chatId : Int
  ts : Nat
deriving DecidableEq

/-- The interceptor's mutable state relevant to ingestion: the Seen-ID
Window `_seen_ids` and the work queue `_queue` (front = next dequeued). -/
structure IState where
  seen : List Int
  queue : List WorkItem
deriving DecidableEq

/-- Observable outcome of `_on_bot_message`: the new state, whether the
message was enqueued, and whether a deletion task was spawned. -/
structure OnMsgOut where
  state : IState
  enqueued : Bool
  deleteSpawned : Bool
deriving DecidableEq

/-- Model of `MessageInterceptor._on_bot_message` (interceptor.py lines 117-135):
drop falsy text; drop messages whose ID is in the Seen-ID Window; record
the ID (evicting the oldest past 100 entries); drop whitespace-only text;
otherwise spawn deletion and enqueue the trimmed text. -/
def onBotMessage (st : IState) (msgId : Int) (text : Option String)
    (userId : Int) (now : Nat) : OnMsgOut :=
  match text with
  | none => ⟨st, false, false⟩
  | some txt =>
    if txt.isEmpty then ⟨st, false, false⟩
    else if msgId ∈ st.seen then ⟨st, false, false⟩
    else
      let seen2 := dequeAppend 100 st.seen msgId
      let t := pyStrip txt
      if t.isEmpty then ⟨⟨seen2, st.queue⟩, false, false⟩
      else ⟨⟨seen2, st.queue ++ [⟨t, userId, now⟩]⟩, true, true⟩

/-- Observable effects of `_handle_result` (interceptor.py lines 226-257):
the library key looked up, the texts passed to `TTSEngine.generate`, the
audio path handed to `_send_voice`, whether the no-audio warning was
logged, and the temporary files unlinked. -/
structure HandleEvents where
  libKey : Option String
  ttsCalls : List String
  sent : Option String
  noAudioWarn : Bool
  unlinked : List String
deriving DecidableEq

/-- Model of `MessageInterceptor._handle_result` (interceptor.py lines 226-257).
`libGet` models `self._library.get`, `ttsGen` models
`self._tts.generate` (returning the produced temp file path or `None`). -/
def handleResult (result : ClassResult) (originalText : String)
    (libGet : String → Option String) (ttsGen : String → Option String) :
    HandleEvents :=
  match result with
  | .library key =>
    match libGet key with
    | some p => ⟨some key, [], some p, false, []⟩
    | none =>
      let cleaned := clean_for_speech originalText
      match ttsGen cleaned with
      | some a => ⟨some key, [cleaned], some a, false, [a]⟩
      | none => ⟨some key, [cleaned], none, true, []⟩
  | .tts t =>
    if t.isEmpty then ⟨none, [], none, true, []⟩
    else
      match ttsGen t with
      | some a => ⟨none, [t], some a, false, [a]⟩
      | none => ⟨none, [t], none, true, []⟩

/-- Model of `MessageInterceptor._process_batch` (interceptor.py lines 210-224):
drain every pending item, join the dequeued text and all pending texts with
single spaces in enqueue order, sanitize once, and handle the result as a
single TTS action.  Returns the handler events and the drained queue. -/
def processBatch (firstText : String) (pending : List WorkItem)
    (libGet ttsGen : String → Option String) : HandleEvents × List WorkItem :=
  let texts := firstText :: pending.map (fun w => w.text)
  let combined := String.intercalate " " texts
  let cleaned := clean_for_speech combined
  (handleResult (.tts cleaned) combined libGet ttsGen, [])

/-- The three load tiers of the worker. -/
inductive Tier where
  | normal
  | fast
  | batch
deriving DecidableEq

/-- Tier selection in `_worker` (interceptor.py lines 181-186), from the
queue depth remaining after the dequeue. -/
def chooseTier (qsize : Nat) : Tier :=
  if qsize ≥ 6 then .batch
  else if qsize ≥ 3 then .fast
  else .normal

/-- One worker iteration (interceptor.py lines 173-224) on a dequeued item
with `pending` the remaining queue contents: pick the tier from the
remaining depth and run the corresponding processing strategy.  `tbl` is
the pattern table, `llm` the remote classification outcome. -/
def workerStep (item : WorkItem) (pending : List WorkItem)
    (tbl : List (String × List Pat)) (llm : Option ClassResult)
    (libGet ttsGen : String → Option String) : HandleEvents × List WorkItem :=
  match chooseTier pending.length with
  | .batch => processBatch item.text pending libGet ttsGen
  | .fast =>
    let r := match patternsMatch tbl item.text with
      | some key => ClassResult.library key
      | none => ClassResult.tts (clean_for_speech item.text)
    (handleResult r item.text libGet ttsGen, pending)
  | .normal =>
    (handleResult (classify tbl llm item.text).result item.text libGet ttsGen, pending)

end Interceptor

/-! Section: Theorems for the claims -/

/-- C10 — Empty-speech drop: when a work item's classification result is
`tts` with empty text, `_handle_result` invokes neither the synthesis
provider nor the voice delivery call, logs the no-audio warning, and
creates/deletes no temporary file.  A non-empty message consisting only of
a code block and a URL sanitizes to the empty string, producing exactly
this case. -/
theorem C10_empty_speech_drop :
    (∀ (orig : String) (libGet ttsGen : String → Option String),
      Interceptor.handleResult (ClassResult.tts "") orig libGet ttsGen =
        ⟨none, [], none, true, []⟩) ∧
    clean_for_speech "```code``` https://x.test" = "" := by
  refine ⟨fun orig libGet ttsGen => rfl, by decide⟩

/-- C4 — Classifier step order: empty/whitespace text yields
`tts ""` immediately without a remote call; a pattern-matcher hit yields
`library key` without a remote call; when the remote call yields no result
(`llm = none`, covering timeout, exception and unparseable response), the
result is `tts` of the sanitized original text.  `classify` is a total
function: no exception propagates. -/
theorem C4_classify_step_order (tbl : List (String × List Pat))
    (llm : Option ClassResult) (t : String) :
    ((pyStrip t).isEmpty = true →
      classify tbl llm t = ⟨.tts "", false⟩) ∧
    (∀ k, patternsMatch tbl t = some k →
      classify tbl llm t = ⟨.library k, false⟩) ∧
    ((pyStrip t).isEmpty = false → patternsMatch tbl t = none → llm = none →
      classify tbl llm t = ⟨.tts (clean_for_speech t), true⟩) := by
  refine ⟨fun h => ?_, fun k hk => ?_, fun h1 h2 h3 => ?_⟩
  · simp [classify, h]
  · have hne : (pyStrip t).isEmpty = false := by
      by_contra hc
      rw [Bool.not_eq_false] at hc
      rw [patternsMatch] at hk
      simp [hc] at hk
    simp [classify, hne, hk]
  · simp [classify, h1, h2, h3]

/-- Witness for C4 at concrete inputs: the empty input, a table hit, and
the no-remote-result fallback. -/
theorem C4_witness :
    classify [] none "  " = ⟨.tts "", false⟩ ∧
    classify [("ack_done", [fun _ => true])] none "Done" =
      ⟨.library "ack_done", false⟩ ∧
    classify [] none "The deployment finished" =
      ⟨.tts (clean_for_speech "The deployment finished"), true⟩ := by
  refine ⟨(C4_classify_step_order [] none "  ").1 (by decide),
    (C4_classify_step_order [("ack_done", [fun _ => true])] none "Done").2.1
      "ack_done" rfl,
    (C4_classify_step_order [] none "The deployment finished").2.2
      (by decide) rfl rfl⟩

/-- C7 — Synthesis engine contract: empty/whitespace text returns
`none` without invoking the provider; timeout, provider exception, or a
provider-side `None` return `none` (totally — never raising); on provider
success with a nonzero transcoder exit the untranscoded raw file is
returned (and not removed); on transcoding success the raw file is removed
and the normalized file returned. -/
theorem C7_generate_contract (text oggPath : String)
    (prov : TTSEngine.ProvOutcome) (conv : TTSEngine.ConvOutcome) :
    ((pyStrip text).isEmpty = true →
      TTSEngine.generate text prov conv oggPath = ⟨none, false, []⟩) ∧
    ((pyStrip text).isEmpty = false →
      (prov = .timeout ∨ prov = .exn ∨ prov = .ok none) →
      TTSEngine.generate text prov conv oggPath = ⟨none, true, []⟩) ∧
    (∀ raw c, (pyStrip text).isEmpty = false → prov = .ok (some raw) →
      conv = .exit c → c ≠ 0 →
      TTSEngine.generate text prov conv oggPath = ⟨some raw, true, [oggPath]⟩) ∧
    (∀ raw, (pyStrip text).isEmpty = false → prov = .ok (some raw) →
      conv = .exit 0 →
      TTSEngine.generate text prov conv oggPath = ⟨some oggPath, true, [raw]⟩) := by
  refine ⟨fun h => ?_, fun h hp => ?_, fun raw c h hp hc hc0 => ?_,
    fun raw h hp hc => ?_⟩
  · simp [TTSEngine.generate, h]
  · rcases hp with hp | hp | hp <;> simp [TTSEngine.generate, h, hp]
  · subst hp; subst hc
    simp [TTSEngine.generate, TTSEngine.convertToOgg, h, hc0]
  · subst hp; subst hc
    simp [TTSEngine.generate, TTSEngine.convertToOgg, h]

/-- Witness for C7 at concrete inputs, covering all four branches. -/
theorem C7_witness :
    TTSEngine.generate " " .timeout (.exit 0) "o.ogg" = ⟨none, false, []⟩ ∧
    TTSEngine.generate "hi" .timeout (.exit 0) "o.ogg" = ⟨none, true, []⟩ ∧
    TTSEngine.generate "hi" (.ok (some "r.mp3")) (.exit 1) "o.ogg" =
      ⟨some "r.mp3", true, ["o.ogg"]⟩ ∧
    TTSEngine.generate "hi" (.ok (some "r.mp3")) (.exit 0) "o.ogg" =
      ⟨some "o.ogg", true, ["r.mp3"]⟩ := by
  refine ⟨(C7_generate_contract " " "o.ogg" .timeout (.exit 0)).1 (by decide),
    (C7_generate_contract "hi" "o.ogg" .timeout (.exit 0)).2.1 (by decide)
      (Or.inl rfl),
    (C7_generate_contract "hi" "o.ogg" (.ok (some "r.mp3")) (.exit 1)).2.2.1
      "r.mp3" 1 (by decide) rfl rfl (by decide),
    (C7_generate_contract "hi" "o.ogg" (.ok (some "r.mp3")) (.exit 0)).2.2.2
      "r.mp3" (by decide) rfl rfl⟩

/-- C8 — Audio library lazy missing-file semantics: `load` succeeds,
and stores the manifest, whenever the manifest file exists and parses —
independent of which audio files exist on disk; it fails exactly on a
missing or malformed manifest; `get` checks file existence per lookup, so
it returns `none` while the file is absent and the path once the file
exists. -/
theorem C8_library_lazy_missing (parsed : Option Manifest)
    (fs fs1 fs2 : String → Bool) (dir key : String) (m : Manifest)
    (e : ManifestEntry) :
    ((AudioLibrary.load true (some m) fs dir).1 = true ∧
      (AudioLibrary.load true (some m) fs dir).2.1 = m) ∧
    (AudioLibrary.load false parsed fs dir).1 = false ∧
    (AudioLibrary.load true none fs dir).1 = false ∧
    (m.find? (fun kv => kv.1 = key) = some (key, e) →
      fs1 (dir ++ "/" ++ e.file) = false →
      AudioLibrary.get m dir fs1 key = none) ∧
    (m.find? (fun kv => kv.1 = key) = some (key, e) →
      fs2 (dir ++ "/" ++ e.file) = true →
      AudioLibrary.get m dir fs2 key = some (dir ++ "/" ++ e.file)) := by
  refine ⟨⟨rfl, rfl⟩, rfl, rfl, fun hf h1 => ?_, fun hf h2 => ?_⟩
  · simp [AudioLibrary.get, hf, h1]
  · simp [AudioLibrary.get, hf, h2]

/-- Witness for C8: a one-entry manifest whose audio file is first absent,
then present. -/
theorem C8_witness :
    AudioLibrary.get [("ack_done", ⟨"ack_done.ogg", "d", [], "t"⟩)] "lib"
      (fun _ => false) "ack_done" = none ∧
    AudioLibrary.get [("ack_done", ⟨"ack_done.ogg", "d", [], "t"⟩)] "lib"
      (fun _ => true) "ack_done" = some ("lib" ++ "/" ++ "ack_done.ogg") := by
  refine ⟨(C8_library_lazy_missing none (fun _ => false) (fun _ => false)
      (fun _ => true) "lib" "ack_done"
      [("ack_done", ⟨"ack_done.ogg", "d", [], "t"⟩)]
      ⟨"ack_done.ogg", "d", [], "t"⟩).2.2.2.1 (by decide) rfl,
    (C8_library_lazy_missing none (fun _ => false) (fun _ => false)
      (fun _ => true) "lib" "ack_done"
      [("ack_done", ⟨"ack_done.ogg", "d", [], "t"⟩)]
      ⟨"ack_done.ogg", "d", [], "t"⟩).2.2.2.2 (by decide) rfl⟩

/-- Lemma: `findSome?` skips a prefix on which the function yields `none`. -/
theorem findSome_append_of_none {α β : Type} (f : α → Option β)
    (l1 l2 : List α) (h : ∀ a ∈ l1, f a = none) :
    (l1 ++ l2).findSome? f = l2.findSome? f := by
  induction l1 with
  | nil => rfl
  | cons a l ih =>
    rw [List.cons_append, List.findSome?_cons, h a (List.mem_cons_self a l)]
    exact ih (fun b hb => h b (List.mem_cons_of_mem a hb))

/-- C6 — Pattern matcher ordering: empty or whitespace-only input
yields `none`; otherwise the scan visits intents in declaration order, so
when no pattern of any earlier-declared intent matches the trimmed text and
some pattern of intent `k` does, `match` returns `k` — first-match-wins
over declaration order, regardless of later intents (including ones that
also match). -/
theorem C6_first_match_wins (pre post : List (String × List Pat))
    (k : String) (ps : List Pat) (t : String) :
    ((pyStrip t).isEmpty = true →
      patternsMatch (pre ++ (k, ps) :: post) t = none) ∧
    ((pyStrip t).isEmpty = false →
      (∀ kp ∈ pre, ∀ p ∈ kp.2, p (pyStrip t) = false) →
      (∃ p ∈ ps, p (pyStrip t) = true) →
      patternsMatch (pre ++ (k, ps) :: post) t = some k) := by
  constructor
  · intro h
    simp [patternsMatch, h]
  · intro hne hpre hit
    rw [patternsMatch]
    simp only [hne, if_false, Bool.false_eq_true]
    rw [findSome_append_of_none]
    · rw [List.findSome?_cons]
      have : ps.any (fun p => p (pyStrip t)) = true := by
        rw [List.any_eq_true]
        obtain ⟨p, hp, hpt⟩ := hit
        exact ⟨p, hp, hpt⟩
      simp [this]
    · intro kp hkp
      have : kp.2.any (fun p => p (pyStrip t)) = false := by
        rw [List.any_eq_false]
        intro p hp
        simp [hpre kp hkp p hp]
      simp [this]

/-- Witness for C6: two intents whose patterns both match; the
earlier-declared one wins; and the empty input yields `none`. -/
theorem C6_witness :
    patternsMatch [("ack_a", [fun _ => false]),
      ("ack_b", [fun _ => false, fun _ => true]),
      ("ack_c", [fun _ => true])] "Done" = some "ack_b" ∧
    patternsMatch [("ack_a", [fun _ => false]),
      ("ack_b", [fun _ => false, fun _ => true]),
      ("ack_c", [fun _ => true])] "  " = none := by
  constructor
  · exact (C6_first_match_wins [("ack_a", [fun _ => false])]
      [("ack_c", [fun _ => true])] "ack_b" [fun _ => false, fun _ => true]
      "Done").2 (by decide)
      (by
        intro kp hkp p hp
        simp only [List.mem_singleton] at hkp
        subst hkp
        simp only [List.mem_singleton] at hp
        subst hp
        rfl)
      ⟨fun _ => true, by simp⟩
  · exact (C6_first_match_wins [("ack_a", [fun _ => false])]
      [("ack_c", [fun _ => true])] "ack_b" [fun _ => false, fun _ => true]
      "  ").1 (by decide)

/-- The deque append keeps at most `cap` entries. -/
theorem dequeAppend_length_le (cap : Nat) (xs : List Int) (x : Int)
    (h : xs.length ≤ cap) :
    (Interceptor.dequeAppend cap xs x).length ≤ cap := by
  rw [Interceptor.dequeAppend]
  split
  · simp only [List.length_drop]
    omega
  · rename_i hle
    simp only [not_lt, List.length_append, List.length_cons, List.length_nil] at hle
    simp only [List.length_append, List.length_cons, List.length_nil]
    omega

/-- At capacity, the deque append evicts exactly the oldest entry. -/
theorem dequeAppend_evicts_oldest (xs : List Int) (x : Int)
    (h : xs.length = 100) :
    Interceptor.dequeAppend 100 xs x = xs.tail ++ [x] := by
  rw [Interceptor.dequeAppend]
  have hlen : (xs ++ [x]).length = 101 := by simp [h]
  rw [if_pos (by omega)]
  have h1 : (xs ++ [x]).length - 100 = 1 := by omega
  rw [h1, List.drop_append_of_le_length (by omega), List.drop_one]

/-- C3 — Duplicate suppression window: a message whose ID is already in
the Seen-ID Window is never enqueued again (state unchanged); the window
never exceeds 100 entries; at exactly 100 entries a new distinct ID evicts
the oldest entry (insertion order, not time); and a message with a new ID
and non-whitespace text is always enqueued, regardless of its text
(duplicate text does not suppress). -/
theorem C3_seen_id_window (st : Interceptor.IState) (msgId : Int)
    (txt : String) (uid : Int) (now : Nat) :
    (txt.isEmpty = false → msgId ∈ st.seen →
      Interceptor.onBotMessage st msgId (some txt) uid now = ⟨st, false, false⟩) ∧
    (st.seen.length ≤ 100 →
      (Interceptor.onBotMessage st msgId (some txt) uid now).state.seen.length ≤ 100) ∧
    (txt.isEmpty = false → msgId ∉ st.seen → st.seen.length = 100 →
      (Interceptor.onBotMessage st msgId (some txt) uid now).state.seen =
        st.seen.tail ++ [msgId]) ∧
    (txt.isEmpty = false → msgId ∉ st.seen → (pyStrip txt).isEmpty = false →
      (Interceptor.onBotMessage st msgId (some txt) uid now).enqueued = true ∧
      (Interceptor.onBotMessage st msgId (some txt) uid now).state.queue =
        st.queue ++ [⟨pyStrip txt, uid, now⟩]) := by
  refine ⟨fun ht hmem => ?_, fun hlen => ?_, fun ht hmem hcap => ?_,
    fun ht hmem hstrip => ?_⟩
  · simp [Interceptor.onBotMessage, ht, hmem]
  · rw [Interceptor.onBotMessage]
    by_cases ht : txt.isEmpty
    · simpa [ht] using hlen
    · by_cases hmem : msgId ∈ st.seen
      · simpa [ht, hmem] using hlen
      · have := dequeAppend_length_le 100 st.seen msgId hlen
        by_cases hs : (pyStrip txt).isEmpty <;>
          simpa [ht, hmem, hs] using this
  · have := dequeAppend_evicts_oldest st.seen msgId hcap
    rw [Interceptor.onBotMessage]
    by_cases hs : (pyStrip txt).isEmpty <;>
      simpa [ht, hmem, hs] using this
  · constructor <;> simp [Interceptor.onBotMessage, ht, hmem, hstrip]

/-- Witness for C3: a window pre-seeded with IDs 0..99; a duplicate ID is
dropped; a new ID 100 evicts ID 0 and the message is enqueued. -/
theorem C3_witness :
    (Interceptor.onBotMessage ⟨(List.range 100).map Int.ofNat, []⟩ 5
      (some "dup") 1 0 = ⟨⟨(List.range 100).map Int.ofNat, []⟩, false, false⟩) ∧
    ((Interceptor.onBotMessage ⟨(List.range 100).map Int.ofNat, []⟩ 100
      (some "Done") 1 0).state.seen =
        ((List.range 100).map Int.ofNat).tail ++ [100]) ∧
    ((Interceptor.onBotMessage ⟨(List.range 100).map Int.ofNat, []⟩ 100
      (some "Done") 1 0).enqueued = true) := by
  refine ⟨(C3_seen_id_window ⟨(List.range 100).map Int.ofNat, []⟩ 5 "dup" 1 0).1
      (by decide) (by decide),
    (C3_seen_id_window ⟨(List.range 100).map Int.ofNat, []⟩ 100 "Done" 1 0).2.2.1
      (by decide) (by decide) (by simp),
    ((C3_seen_id_window ⟨(List.range 100).map Int.ofNat, []⟩ 100 "Done" 1 0).2.2.2
      (by decide) (by decide) (by decide)).1⟩

/-- Every entry of `dictSet m k v` is either `(k, v)` or an entry of `m`
whose key is not `k`. -/
theorem dictSet_mem (m : Interceptor.PendMap) (k : String) (v : Int × Int)
    (e : String × Int × Int) (he : e ∈ Interceptor.dictSet m k v) :
    e = (k, v) ∨ (e ∈ m ∧ e.1 ≠ k) := by
  rw [Interceptor.dictSet] at he
  split at he
  · obtain ⟨e0, he0, heq⟩ := List.mem_map.mp he
    by_cases hk : e0.1 = k
    · left
      rw [if_pos hk] at heq
      exact heq.symm
    · right
      rw [if_neg hk] at heq
      exact heq ▸ ⟨he0, hk⟩
  · rename_i hnone
    rcases List.mem_append.mp he with h | h
    · right
      refine ⟨h, fun hk => ?_⟩
      rw [List.any_eq_true] at hnone
      exact absurd ⟨e, h, by simp [hk]⟩ hnone
    · left
      simpa using h

/-- After `dictSet m k v`, looking up `k` yields `v`. -/
theorem dictGet_dictSet (m : Interceptor.PendMap) (k : String) (v : Int × Int) :
    Interceptor.dictGet (Interceptor.dictSet m k v) k = some v := by
  rw [Interceptor.dictSet, Interceptor.dictGet]
  split
  · rename_i hany
    rw [List.any_eq_true] at hany
    obtain ⟨e, he, hek⟩ := hany
    simp only [decide_eq_true_eq] at hek
    induction m with
    | nil => cases he
    | cons a l ih =>
      by_cases ha : a.1 = k
      · simp [List.find?_cons, ha]
      · rcases List.mem_cons.mp he with h | h
        · exact absurd (h ▸ hek) (h ▸ ha)
        · simpa [List.find?_cons, ha] using ih h
  · rename_i hnone
    induction m with
    | nil => simp [List.find?_cons]
    | cons a l ih =>
      have ha : ¬ (a.1 = k) := by
        intro hk
        exact hnone (by rw [List.any_eq_true]; exact ⟨a, List.mem_cons_self a l, by simp [hk]⟩)
      have hl : ¬ l.any (fun kv => kv.1 = k) = true := by
        intro hk
        rw [List.any_eq_true] at hk
        obtain ⟨e, he, hek⟩ := hk
        exact hnone (by rw [List.any_eq_true]; exact ⟨e, List.mem_cons_of_mem a he, hek⟩)
      simpa [List.find?_cons, ha] using ih hl

/-- Lemma: `dictSet` preserves key uniqueness (the map keeps at most one entry per
fingerprint). -/
theorem dictSet_keys_nodup (m : Interceptor.PendMap) (k : String)
    (v : Int × Int) (h : (m.map (fun kv => kv.1)).Nodup) :
    ((Interceptor.dictSet m k v).map (fun kv => kv.1)).Nodup := by
  rw [Interceptor.dictSet]
  split
  · have : (Interceptor.dictSet m k v).map (fun kv => kv.1) =
        m.map (fun kv => kv.1) := by
      rw [Interceptor.dictSet]
      split
      · rw [List.map_map]
        congr 1
        funext kv
        by_cases hk : kv.1 = k <;> simp [hk]
      · rename_i h1 h2
        exact absurd h1 h2
    rw [Interceptor.dictSet] at this
    split at this
    · rw [this]
      exact h
    · rename_i h1 h2
      exact absurd h1 h2
  · rename_i hnone
    rw [List.map_append, List.nodup_append]
    refine ⟨h, by simp, fun a ha hb => ?_⟩
    simp only [List.map_cons, List.map_nil, List.mem_singleton] at hb
    subst hb
    rw [List.mem_map] at ha
    obtain ⟨e, he, hek⟩ := ha
    exact hnone (by rw [List.any_eq_true]; exact ⟨e, he, by simp [hek]⟩)

/-- C9 — Fingerprint collision overwrite: the Pending Deletion Map
keeps at most one `(chat id, message id)` per fingerprint; when two
outgoing messages share a fingerprint, the later observation overwrites the
earlier entry, the earlier mapped ID disappears from the map, and a
subsequent `_delete_message` for that fingerprint issues its mapped delete
against the later message's ID — so the earlier message can only ever be
deleted by the history-scan fallback. -/
theorem C9_fingerprint_overwrite (m : Interceptor.PendMap) (tA tB : String)
    (cA iA cB iB : Int) (history : List Interceptor.HistMsg) (tc bu : Int)
    (hA : tA.isEmpty = false) (hB : tB.isEmpty = false)
    (hfp : Interceptor.fingerprint tA = Interceptor.fingerprint tB)
    (hnodup : (m.map (fun kv => kv.1)).Nodup)
    (hold : ∀ e ∈ m, e.2 ≠ (cA, iA))
    (hne : (cA, iA) ≠ (cB, iB)) :
    Interceptor.dictGet
      (Interceptor.onBotOutgoing (Interceptor.onBotOutgoing m (some tA) cA iA)
        (some tB) cB iB) (Interceptor.fingerprint tA) = some (cB, iB) ∧
    ((Interceptor.onBotOutgoing (Interceptor.onBotOutgoing m (some tA) cA iA)
        (some tB) cB iB).map (fun kv => kv.1)).Nodup ∧
    (∀ e ∈ Interceptor.onBotOutgoing (Interceptor.onBotOutgoing m (some tA) cA iA)
        (some tB) cB iB, e.2 ≠ (cA, iA)) ∧
    (Interceptor.deleteMessage tA
      (fun _ => Interceptor.onBotOutgoing
        (Interceptor.onBotOutgoing m (some tA) cA iA) (some tB) cB iB)
      history tc bu).calls = [Interceptor.DelCall.viaMap cB iB] := by
  have hm1 : Interceptor.onBotOutgoing m (some tA) cA iA =
      Interceptor.dictSet m (Interceptor.fingerprint tA) (cA, iA) := by
    simp [Interceptor.onBotOutgoing, hA]
  have hm2 : Interceptor.onBotOutgoing
      (Interceptor.onBotOutgoing m (some tA) cA iA) (some tB) cB iB =
      Interceptor.dictSet
        (Interceptor.dictSet m (Interceptor.fingerprint tA) (cA, iA))
        (Interceptor.fingerprint tA) (cB, iB) := by
    rw [hm1]
    simp [Interceptor.onBotOutgoing, hB, ← hfp]
  have hget : Interceptor.dictGet
      (Interceptor.onBotOutgoing (Interceptor.onBotOutgoing m (some tA) cA iA)
        (some tB) cB iB) (Interceptor.fingerprint tA) = some (cB, iB) := by
    rw [hm2]
    exact dictGet_dictSet _ _ _
  refine ⟨hget, ?_, ?_, ?_⟩
  · rw [hm2]
    exact dictSet_keys_nodup _ _ _ (dictSet_keys_nodup _ _ _ hnodup)
  · intro e he
    rw [hm2] at he
    rcases dictSet_mem _ _ _ _ he with h | ⟨hmem, hkey⟩
    · rw [h]
      simpa using Ne.symm hne
    · rcases dictSet_mem _ _ _ _ hmem with h | ⟨hmem2, _⟩
      · exact absurd (congrArg Prod.fst h) hkey
      · exact hold e hmem2
  · rw [Interceptor.deleteMessage]
    have hpoll : Interceptor.pollLoop (Interceptor.fingerprint tA)
        (fun _ => Interceptor.onBotOutgoing
          (Interceptor.onBotOutgoing m (some tA) cA iA) (some tB) cB iB)
        0 20 = some (0, cB, iB) := by
      rw [Interceptor.pollLoop]
      simp [hget]
    simp [hpoll]

/-- Witness for C9: two messages sharing the same 100-character trimmed
prefix; the second overwrites the first's mapped ID. -/
theorem C9_witness :
    Interceptor.dictGet
      (Interceptor.onBotOutgoing (Interceptor.onBotOutgoing [] (some "hello") 7 41)
        (some " hello ") 7 42) (Interceptor.fingerprint "hello") = some (7, 42) ∧
    (Interceptor.deleteMessage "hello"
      (fun _ => Interceptor.onBotOutgoing
        (Interceptor.onBotOutgoing [] (some "hello") 7 41) (some " hello ") 7 42)
      [] 7 9).calls = [Interceptor.DelCall.viaMap 7 42] := by
  refine ⟨(C9_fingerprint_overwrite [] "hello" " hello " 7 41 7 42 [] 7 9
      rfl rfl (by decide) (by simp) (by simp) (by decide)).1,
    (C9_fingerprint_overwrite [] "hello" " hello " 7 41 7 42 [] 7 9
      rfl rfl (by decide) (by simp) (by simp) (by decide)).2.2.2⟩

/-- The poll loop misses when the fingerprint never appears in any polled
map snapshot. -/
theorem pollLoop_none (key : String) (maps : Nat → Interceptor.PendMap) :
    ∀ (fuel start : Nat),
      (∀ j, start ≤ j → j < start + fuel → Interceptor.dictGet (maps j) key = none) →
      Interceptor.pollLoop key maps start fuel = none := by
  intro fuel
  induction fuel with
  | zero => intro start _; rfl
  | succ n ih =>
    intro start h
    rw [Interceptor.pollLoop]
    rw [h start (le_refl start) (by omega)]
    exact ih (start + 1) (fun j hj1 hj2 => h j (by omega) (by omega))

/-- The poll loop returns the entry found at the first snapshot containing
the fingerprint. -/
theorem pollLoop_first_hit (key : String) (maps : Nat → Interceptor.PendMap)
    (c mId : Int) :
    ∀ (fuel start i : Nat), start ≤ i → i < start + fuel →
      (∀ j, start ≤ j → j < i → Interceptor.dictGet (maps j) key = none) →
      Interceptor.dictGet (maps i) key = some (c, mId) →
      Interceptor.pollLoop key maps start fuel = some (i, c, mId) := by
  intro fuel
  induction fuel with
  | zero => intro start i h1 h2; omega
  | succ n ih =>
    intro start i h1 h2 hmiss hhit
    rw [Interceptor.pollLoop]
    by_cases hsi : start = i
    · subst hsi
      rw [hhit]
    · rw [hmiss start (le_refl start) (by omega)]
      exact ih (start + 1) i (by omega) (by omega)
        (fun j hj1 hj2 => hmiss j (by omega) hj2) hhit

/-- Looking up a key in a map from which it was just popped yields nothing. -/
theorem dictGet_dictErase (m : Interceptor.PendMap) (k : String) :
    Interceptor.dictGet (Interceptor.dictErase m k) k = none := by
  rw [Interceptor.dictGet, Option.map_eq_none', List.find?_eq_none]
  intro x hx
  rw [Interceptor.dictErase] at hx
  have hne := (List.mem_filter.mp hx).2
  simp only [ne_eq, decide_not, Bool.not_eq_true', decide_eq_false_iff_not] at hne
  simp [hne]

/-- C2 — Cross-identity deletion: `_delete_message` polls the Pending
Deletion Map for the text's fingerprint for up to 20 iterations (~2 s); if
some snapshot before the timeout contains the fingerprint, the routine
deletes exactly once using the first such snapshot's mapped
`(chat id, message id)` and removes the map entry; if no snapshot ever
contains it, it falls through exactly once to the history scan of the last
5 messages, deleting the first text match (or nothing).  In every case at
most one platform delete call is issued — a failure is logged, never
retried. -/
theorem C2_delete_message (text : String) (maps : Nat → Interceptor.PendMap)
    (history : List Interceptor.HistMsg) (tc bu : Int) :
    (∀ i c mId, i < 20 →
      (∀ j, j < i → Interceptor.dictGet (maps j) (Interceptor.fingerprint text) = none) →
      Interceptor.dictGet (maps i) (Interceptor.fingerprint text) = some (c, mId) →
      Interceptor.deleteMessage text maps history tc bu =
        ⟨[.viaMap c mId],
          some (Interceptor.dictErase (maps i) (Interceptor.fingerprint text))⟩ ∧
      Interceptor.dictGet
        (Interceptor.dictErase (maps i) (Interceptor.fingerprint text))
        (Interceptor.fingerprint text) = none) ∧
    ((∀ i, i < 20 →
        Interceptor.dictGet (maps i) (Interceptor.fingerprint text) = none) →
      ((history.take 5).find?
          (Interceptor.histMatch bu (Interceptor.fingerprint text)) = none →
        Interceptor.deleteMessage text maps history tc bu = ⟨[], none⟩) ∧
      (∀ msg, (history.take 5).find?
          (Interceptor.histMatch bu (Interceptor.fingerprint text)) = some msg →
        Interceptor.deleteMessage text maps history tc bu =
          ⟨[.viaHist tc msg.id], none⟩)) ∧
    (Interceptor.deleteMessage text maps history tc bu).calls.length ≤ 1 := by
  refine ⟨fun i c mId hi hmiss hhit => ?_, fun hnone => ?_, ?_⟩
  · have hp := pollLoop_first_hit (Interceptor.fingerprint text) maps c mId 20 0 i
      (Nat.zero_le i) (by omega) (fun j _ hj => hmiss j hj) hhit
    exact ⟨by rw [Interceptor.deleteMessage, hp], dictGet_dictErase _ _⟩
  · have hp := pollLoop_none (Interceptor.fingerprint text) maps 20 0
      (fun j _ hj => hnone j (by omega))
    constructor
    · intro hfind
      rw [Interceptor.deleteMessage, hp, hfind]
    · intro msg hfind
      rw [Interceptor.deleteMessage, hp, hfind]
  · rw [Interceptor.deleteMessage]
    rcases hp : Interceptor.pollLoop (Interceptor.fingerprint text) maps 0 20 with
      _ | ⟨i, c, mId⟩
    · rcases hf : (history.take 5).find?
        (Interceptor.histMatch bu (Interceptor.fingerprint text)) with _ | msg
      · simp
      · simp
    · simp

/-- Witness for C2: a map that contains the fingerprint from poll
iteration 3 on (hit path), and an all-empty map with a matching history
message (fallback path). -/
theorem C2_witness :
    Interceptor.deleteMessage "Done"
      (fun i => if i ≥ 3 then [("Done", (7, 99))] else []) [] 7 5 =
      ⟨[.viaMap 7 99], some []⟩ ∧
    Interceptor.deleteMessage "Done" (fun _ => [])
      [⟨some 5, some "Done", 88⟩] 7 5 =
      ⟨[.viaHist 7 88], none⟩ := by
  constructor
  · have h := (C2_delete_message "Done"
      (fun i => if i ≥ 3 then [("Done", (7, 99))] else []) [] 7 5).1
      3 7 99 (by omega) (fun j hj => by
        interval_cases j <;> rfl) (by rfl)
    simpa using h.1
  · have h := ((C2_delete_message "Done" (fun _ => [])
      [⟨some 5, some "Done", 88⟩] 7 5).2.1
      (fun i _ => rfl)).2 ⟨some 5, some "Done", 88⟩ (by rfl)
    simpa using h

/-- C1 (amended) — Batch tier: when the remaining queue depth at
dequeue is at least 6, the worker drains the entire queue, joins the
dequeued text and every pending text with single spaces in enqueue order,
sanitizes the concatenation once, and makes *at most* one synthesis call:
exactly one — whose input is the sanitized concatenation — when that
sanitized text is nonempty, and none when the concatenation sanitizes to
the empty string. -/
theorem C1_batch_tier (item : Interceptor.WorkItem)
    (pending : List Interceptor.WorkItem) (tbl : List (String × List Pat))
    (llm : Option ClassResult) (libGet ttsGen : String → Option String)
    (h : 6 ≤ pending.length) :
    (Interceptor.workerStep item pending tbl llm libGet ttsGen).2 = [] ∧
    (Interceptor.workerStep item pending tbl llm libGet ttsGen).1.ttsCalls =
      (if (clean_for_speech (String.intercalate " "
            (item.text :: pending.map (fun w => w.text)))).isEmpty then []
       else [clean_for_speech (String.intercalate " "
            (item.text :: pending.map (fun w => w.text)))]) := by
  have htier : Interceptor.chooseTier pending.length = .batch := by
    rw [Interceptor.chooseTier, if_pos h]
  rw [Interceptor.workerStep, htier]
  rw [Interceptor.processBatch]
  refine ⟨rfl, ?_⟩
  rw [Interceptor.handleResult]
  by_cases hc : (clean_for_speech (String.intercalate " "
      (item.text :: pending.map (fun w => w.text)))).isEmpty
  · simp only [hc, if_true]
  · simp only [hc, Bool.false_eq_true, if_false]
    cases hg : ttsGen (clean_for_speech (String.intercalate " "
      (item.text :: pending.map (fun w => w.text)))) <;> rfl

/-- Counterexample to C1 as stated: seven queued messages consisting only
of bare URLs sanitize to the empty string, so the Batch tier (depth 6 after
dequeue) makes *zero* synthesis calls, not exactly one. -/
theorem C1_counterexample :
    6 ≤ (List.replicate 6 (⟨"https://x", 1, 0⟩ : Interceptor.WorkItem)).length ∧
    (Interceptor.workerStep ⟨"https://x", 1, 0⟩
      (List.replicate 6 ⟨"https://x", 1, 0⟩) [] none
      (fun _ => some "lib.ogg") (fun _ => some "tts.ogg")).1.ttsCalls = [] ∧
    (Interceptor.workerStep ⟨"https://x", 1, 0⟩
      (List.replicate 6 ⟨"https://x", 1, 0⟩) [] none
      (fun _ => some "lib.ogg") (fun _ => some "tts.ogg")).1.sent = none := by
  refine ⟨by decide, by decide, by decide⟩

/-- Witness for C1 (amended) at a concrete input with nonempty sanitized
text: one batch of seven `"hello"` messages yields exactly one synthesis
call on the space-joined sanitized text and an empty queue. -/
theorem C1_witness :
    (Interceptor.workerStep ⟨"hello", 1, 0⟩
      (List.replicate 6 ⟨"hello", 1, 0⟩) [] none
      (fun _ => some "lib.ogg") (fun _ => some "tts.ogg")).2 = [] ∧
    (Interceptor.workerStep ⟨"hello", 1, 0⟩
      (List.replicate 6 ⟨"hello", 1, 0⟩) [] none
      (fun _ => some "lib.ogg") (fun _ => some "tts.ogg")).1.ttsCalls =
      ["hello hello hello hello hello hello hello"] := by
  have h := C1_batch_tier ⟨"hello", 1, 0⟩ (List.replicate 6 ⟨"hello", 1, 0⟩)
    [] none (fun _ => some "lib.ogg") (fun _ => some "tts.ogg") (by decide)
  refine ⟨h.1, ?_⟩
  rw [h.2]
  decide

/-- Counterexample to C5 as stated: sanitization is not idempotent.  On
`"# # x"` one pass removes only the first header marker (the `MULTILINE`
header pattern matches once per line start), leaving `"# x"`, and a second
pass removes the now-leading marker, giving `"x"`. -/
theorem C5_counterexample :
    clean_for_speech "# # x" = "# x" ∧
    clean_for_speech (clean_for_speech "# # x") = "x" ∧
    (("# x" : String) == "x") = false := by
  refine ⟨by decide, by decide, by decide⟩

/-- A character whose presence can make a sanitization stage rewrite the
text: backtick (code), `#` (headers), `*`/`_` (emphasis), `[` (links),
`:` (URLs — `http://`/`https://` contain a colon). -/
def isMdChar (c : Char) : Bool :=
  c = tickChar || c = '#' || c = '*' || c = '_' || c = '[' || c = ':'

/-- Stage 1 is the identity on backtick-free text. -/
theorem cbSub_id (fuel : Nat) (l : List Char) (h : tickChar ∉ l) :
    cbSub fuel l = l := by
  induction fuel generalizing l with
  | zero => cases l <;> rfl
  | succ n ih =>
    cases l with
    | nil => rfl
    | cons c cs =>
      have hc : ¬ (c = tickChar) := fun hc =>
        h (hc ▸ List.mem_cons_self c cs)
      have hstep : cbSub (n + 1) (c :: cs) = c :: cbSub n cs := by
        cases cs with
        | nil => simp [cbSub, hc]
        | cons c2 cs2 =>
          cases cs2 with
          | nil => simp [cbSub, hc]
          | cons c3 cs3 => simp [cbSub, hc]
      rw [hstep, ih cs (fun hm => h (List.mem_cons_of_mem c hm))]

/-- Stage 2 is the identity on backtick-free text. -/
theorem icSub_id (fuel : Nat) (l : List Char) (h : tickChar ∉ l) :
    icSub fuel l = l := by
  induction fuel generalizing l with
  | zero => cases l <;> rfl
  | succ n ih =>
    cases l with
    | nil => rfl
    | cons c cs =>
      have hc : ¬ (c = tickChar) := fun hc =>
        h (hc ▸ List.mem_cons_self c cs)
      rw [icSub, if_neg hc]
      rw [ih cs (fun hm => h (List.mem_cons_of_mem c hm))]

/-- Stage 3 is the identity on `#`-free text, at any line-start state. -/
theorem hdrSub_id (fuel : Nat) (b : Bool) (l : List Char) (h : '#' ∉ l) :
    hdrSub fuel b l = l := by
  induction fuel generalizing b l with
  | zero => cases l <;> rfl
  | succ n ih =>
    cases l with
    | nil => rfl
    | cons c cs =>
      have hc : (b && decide (c = '#')) = false := by
        have : ¬ (c = '#') := fun hc => h (hc ▸ List.mem_cons_self c cs)
        simp [this]
      rw [hdrSub, hc]
      simp only [Bool.false_eq_true, if_false]
      rw [ih _ cs (fun hm => h (List.mem_cons_of_mem c hm))]

/-- Stage 4 is the identity on text free of emphasis markers. -/
theorem emphSub_id (fuel : Nat) (l : List Char) (h1 : '*' ∉ l)
    (h2 : '_' ∉ l) : emphSub fuel l = l := by
  induction fuel generalizing l with
  | zero => cases l <;> rfl
  | succ n ih =>
    cases l with
    | nil => rfl
    | cons c cs =>
      have hc : isEmph c = false := by
        rw [isEmph]
        have hs : ¬ (c = '*') := fun hc => h1 (hc ▸ List.mem_cons_self c cs)
        have hu : ¬ (c = '_') := fun hc => h2 (hc ▸ List.mem_cons_self c cs)
        simp [hs, hu]
      rw [emphSub, hc]
      simp only [Bool.false_eq_true, if_false]
      rw [ih cs (fun hm => h1 (List.mem_cons_of_mem c hm))
        (fun hm => h2 (List.mem_cons_of_mem c hm))]

/-- Stage 5 is the identity on `[`-free text. -/
theorem linkSub_id (fuel : Nat) (l : List Char) (h : '[' ∉ l) :
    linkSub fuel l = l := by
  induction fuel generalizing l with
  | zero => cases l <;> rfl
  | succ n ih =>
    cases l with
    | nil => rfl
    | cons c cs =>
      have hc : ¬ (c = '[') := fun hc => h (hc ▸ List.mem_cons_self c cs)
      rw [linkSub, if_neg hc]
      rw [ih cs (fun hm => h (List.mem_cons_of_mem c hm))]

/-- Stage 6 is the identity on colon-free text (a URL match requires the
literal `://`). -/
theorem urlSub_id (fuel : Nat) (l : List Char) (h : ':' ∉ l) :
    urlSub fuel l = l := by
  induction fuel generalizing l with
  | zero => cases l <;> rfl
  | succ n ih =>
    cases l with
    | nil => rfl
    | cons c cs =>
      have hp1 : ¬ ("http://".data.isPrefixOf (c :: cs) = true) := by
        intro hp
        rw [ List.isPrefixOf_iff_prefix] at hp
        exact h (hp.subset (by decide))
      have hp2 : ¬ ("https://".data.isPrefixOf (c :: cs) = true) := by
        intro hp
        rw [ List.isPrefixOf_iff_prefix] at hp
        exact h (hp.subset (by decide))
      rw [urlSub, if_neg hp1, if_neg hp2]
      rw [ih cs (fun hm => h (List.mem_cons_of_mem c hm))]

/-- The head surviving a `dropWhile` does not satisfy the predicate. -/
theorem head_dropWhile_not (p : Char → Bool) :
    ∀ (l : List Char) (d : Char), (l.dropWhile p).head? = some d → p d = false := by
  intro l
  induction l with
  | nil => intro d hd; cases hd
  | cons a as ih =>
    intro d hd
    rw [List.dropWhile_cons] at hd
    split at hd
    · exact ih d hd
    · rename_i hpa
      rw [List.head?_cons, Option.some_inj] at hd
      subst hd
      exact Bool.not_eq_true _ ▸ hpa

/-- Whitespace-normal form: the only whitespace character occurring is a
single space, and no two whitespace characters are adjacent.  This is the
invariant established by `\s+ → " "` collapsing. -/
def WSok (l : List Char) : Prop :=
  (∀ c ∈ l, isPySpace c = true → c = ' ') ∧
    l.Chain' (fun a b => ¬(isPySpace a = true ∧ isPySpace b = true))

/-- Lemma: `wsCollapse` keeps the head of a list starting with non-whitespace. -/
theorem wsCollapse_head (fuel : Nat) (d : Char) (ds : List Char)
    (hf : 1 ≤ fuel) (hd : isPySpace d = false) :
    (wsCollapse fuel (d :: ds)).head? = some d := by
  cases fuel with
  | zero => omega
  | succ n =>
    rw [wsCollapse]
    simp [hd]

/-- Every character of a collapsed list is a space or from the input. -/
theorem wsCollapse_mem (fuel : Nat) (l : List Char) (c : Char)
    (hc : c ∈ wsCollapse fuel l) : c = ' ' ∨ c ∈ l := by
  induction fuel generalizing l with
  | zero =>
    cases l with
    | nil => cases hc
    | cons a as => exact Or.inr hc
  | succ n ih =>
    cases l with
    | nil => cases hc
    | cons a as =>
      rw [wsCollapse] at hc
      split at hc
      · rcases List.mem_cons.mp hc with h | h
        · exact Or.inl h
        · rcases ih _ h with h2 | h2
          · exact Or.inl h2
          · exact Or.inr (List.mem_cons_of_mem a
              ((List.dropWhile_sublist isPySpace).mem h2))
      · rcases List.mem_cons.mp hc with h | h
        · exact Or.inr (h ▸ List.mem_cons_self a as)
        · rcases ih _ h with h2 | h2
          · exact Or.inl h2
          · exact Or.inr (List.mem_cons_of_mem a h2)

/-- With sufficient fuel, `wsCollapse` outputs whitespace-normal text. -/
theorem wsCollapse_WSok (fuel : Nat) (l : List Char) (hf : l.length ≤ fuel) :
    WSok (wsCollapse fuel l) := by
  induction fuel generalizing l with
  | zero =>
    have : l = [] := List.length_eq_zero.mp (Nat.le_zero.mp hf)
    subst this
    exact ⟨fun c hc => (List.not_mem_nil c hc).elim, List.chain'_nil⟩
  | succ n ih =>
    cases l with
    | nil => exact ⟨fun c hc => (List.not_mem_nil c hc).elim, List.chain'_nil⟩
    | cons a as =>
      rw [List.length_cons, Nat.succ_le_succ_iff] at hf
      rw [wsCollapse]
      split
      · have hlen : (as.dropWhile isPySpace).length ≤ n :=
          le_trans (List.dropWhile_sublist isPySpace).length_le hf
        obtain ⟨ihmem, ihchain⟩ := ih (as.dropWhile isPySpace) hlen
        refine ⟨?_, ?_⟩
        · intro c hc hsp
          rcases List.mem_cons.mp hc with h | h
          · exact h
          · exact ihmem c h hsp
        · rw [List.chain'_cons']
          refine ⟨?_, ihchain⟩
          intro y hy
          rcases hhead : (as.dropWhile isPySpace) with _ | ⟨d, ds⟩
          · rw [hhead] at hy
            cases n with
            | zero => cases hy
            | succ m => cases hy
          · have hd : isPySpace d = false :=
              head_dropWhile_not isPySpace as d (by rw [hhead]; rfl)
            have : 1 ≤ n := by
              rw [hhead] at hlen
              simpa using Nat.one_le_of_lt (Nat.lt_of_lt_of_le
                (Nat.zero_lt_succ _) hlen)
            rw [hhead] at hy
            rw [wsCollapse_head n d ds this hd] at hy
            rw [Option.mem_def, Option.some_inj] at hy
            subst hy
            intro hcon
            rw [hd] at hcon
            exact Bool.false_ne_true hcon.2
      · rename_i hsp
        have hsp' : isPySpace a = false := by
          revert hsp
          cases isPySpace a <;> simp
        obtain ⟨ihmem, ihchain⟩ := ih as hf
        refine ⟨?_, ?_⟩
        · intro c hc hspc
          rcases List.mem_cons.mp hc with h | h
          · rw [h] at hspc
            rw [hspc] at hsp'
            cases hsp'
          · exact ihmem c h hspc
        · rw [List.chain'_cons']
          refine ⟨?_, ihchain⟩
          intro y _ hcon
          rw [hsp'] at hcon
          exact Bool.false_ne_true hcon.1

/-- Lemma: `wsCollapse` is the identity on whitespace-normal text. -/
theorem wsCollapse_id_of_WSok (fuel : Nat) (l : List Char) (h : WSok l) :
    wsCollapse fuel l = l := by
  induction fuel generalizing l with
  | zero => cases l <;> rfl
  | succ n ih =>
    cases l with
    | nil => rfl
    | cons a as =>
      obtain ⟨hmem, hchain⟩ := h
      rw [List.chain'_cons'] at hchain
      have htail : WSok as := ⟨fun c hc => hmem c (List.mem_cons_of_mem a hc),
        hchain.2⟩
      rw [wsCollapse]
      split
      · rename_i hspa
        have ha : a = ' ' := hmem a (List.mem_cons_self a as) hspa
        have hdrop : as.dropWhile isPySpace = as := by
          cases has : as with
          | nil => rfl
          | cons d ds =>
            have hd : isPySpace d = false := by
              have := hchain.1 d (by rw [has]; rfl)
              rw [hspa] at this
              cases hpd : isPySpace d
              · rfl
              · exact absurd ⟨rfl, hpd⟩ this
            rw [List.dropWhile_cons, hd]
            simp
        rw [hdrop, ih as htail, ha]
      · rw [ih as htail]

/-- Lemma: `pyStripL` yields a sublist (so a subset) of its input. -/
theorem pyStripL_sublist (l : List Char) : List.Sublist (pyStripL l) l := by
  rw [pyStripL]
  have hp := List.rdropWhile_prefix isPySpace (l.dropWhile isPySpace)
  exact hp.sublist.trans (List.dropWhile_sublist isPySpace)

/-- Lemma: `pyStripL` preserves whitespace-normal form. -/
theorem pyStripL_WSok (l : List Char) (h : WSok l) : WSok (pyStripL l) := by
  obtain ⟨hmem, hchain⟩ := h
  refine ⟨fun c hc => hmem c (List.Sublist.mem hc (pyStripL_sublist l)), ?_⟩
  rw [pyStripL]
  have hp := List.rdropWhile_prefix isPySpace (l.dropWhile isPySpace)
  exact List.Chain'.prefix (hchain.suffix (List.dropWhile_suffix isPySpace)) hp

/-- The head of a stripped list is not whitespace. -/
theorem pyStripL_head (l : List Char) (d : Char)
    (hd : (pyStripL l).head? = some d) : isPySpace d = false := by
  rw [pyStripL, List.rdropWhile] at hd
  set X := l.dropWhile isPySpace with hX
  have hpre : (X.reverse.dropWhile isPySpace).reverse <+: X :=
    List.rdropWhile_prefix isPySpace X
  obtain ⟨t, ht⟩ := hpre
  have hXd : X.head? = some d := by
    rw [← ht, List.head?_append, hd, Option.or_some]
  exact head_dropWhile_not isPySpace l d hXd

/-- The last character of a stripped list is not whitespace. -/
theorem pyStripL_last (l : List Char) (d : Char)
    (hd : (pyStripL l).getLast? = some d) : isPySpace d = false := by
  rw [pyStripL, List.rdropWhile, List.getLast?_reverse] at hd
  exact head_dropWhile_not isPySpace _ d hd

/-- Lemma: `pyStripL` is idempotent. -/
theorem pyStripL_idem (l : List Char) : pyStripL (pyStripL l) = pyStripL l := by
  have h1 : (pyStripL l).dropWhile isPySpace = pyStripL l := by
    cases hz : pyStripL l with
    | nil => rfl
    | cons d ds =>
      have hd : isPySpace d = false := pyStripL_head l d (by rw [hz]; rfl)
      rw [List.dropWhile_cons, hd]
      simp
  have h2 : (pyStripL l).reverse.dropWhile isPySpace = (pyStripL l).reverse := by
    cases hz : (pyStripL l).reverse with
    | nil => rfl
    | cons d ds =>
      have hlast : (pyStripL l).getLast? = some d := by
        rw [← List.head?_reverse, hz]
        rfl
      have hd : isPySpace d = false := pyStripL_last l d hlast
      rw [List.dropWhile_cons, hd]
      simp
  rw [pyStripL]
  rw [show (pyStripL l).dropWhile isPySpace = pyStripL l from h1]
  rw [List.rdropWhile, h2, List.reverse_reverse]

/-- On markdown-free text (no backtick, `#`, `*`, `_`, `[`, `:`) the
sanitizer reduces to whitespace collapsing and stripping: stages 1-6 are
the identity. -/
theorem cleanList_plain (l : List Char) (h : ∀ c ∈ l, isMdChar c = false) :
    cleanList l = pyStripL (wsCollapse l.length l) := by
  have htick : tickChar ∉ l := fun hm => absurd (h _ hm) (by decide)
  have hhash : '#' ∉ l := fun hm => absurd (h _ hm) (by decide)
  have hstar : '*' ∉ l := fun hm => absurd (h _ hm) (by decide)
  have hund : '_' ∉ l := fun hm => absurd (h _ hm) (by decide)
  have hbr : '[' ∉ l := fun hm => absurd (h _ hm) (by decide)
  have hcol : ':' ∉ l := fun hm => absurd (h _ hm) (by decide)
  simp only [cleanList]
  rw [cbSub_id l.length l htick, icSub_id l.length l htick,
    hdrSub_id l.length true l hhash, emphSub_id l.length l hstar hund,
    linkSub_id l.length l hbr, urlSub_id l.length l hcol]

/-- C5 (amended) — Sanitization is *not* idempotent in general (see the
counterexample on `"# # x"`), but it is idempotent on inputs free of
markdown/URL metacharacters (backtick, `#`, `*`, `_`, `[`, `:`): for such
text one pass only collapses whitespace and trims, and that transform is a
fixpoint of the full pipeline. -/
theorem C5_amended_idempotent (s : String)
    (h : ∀ c ∈ s.data, isMdChar c = false) :
    clean_for_speech (clean_for_speech s) = clean_for_speech s := by
  have hz : clean_for_speech s = ⟨pyStripL (wsCollapse s.data.length s.data)⟩ := by
    rw [clean_for_speech, cleanList_plain s.data h]
  set z := pyStripL (wsCollapse s.data.length s.data) with hzdef
  have hWSy : WSok (wsCollapse s.data.length s.data) :=
    wsCollapse_WSok _ _ (le_refl _)
  have hWSz : WSok z := pyStripL_WSok _ hWSy
  have hplain : ∀ c ∈ z, isMdChar c = false := by
    intro c hc
    have hc2 := List.Sublist.mem hc (pyStripL_sublist _)
    rcases wsCollapse_mem _ _ _ hc2 with hsp | hmem
    · rw [hsp]; decide
    · exact h c hmem
  have hfix : pyStripL z = z := by
    rw [hzdef]
    exact pyStripL_idem _
  rw [hz, clean_for_speech, cleanList_plain z hplain,
    wsCollapse_id_of_WSok _ _ hWSz, hfix]

/-- Witness for C5 (amended): a plain-text input with internal whitespace. -/
theorem C5_witness :
    clean_for_speech (clean_for_speech "hello  world") =
      clean_for_speech "hello  world" :=
  C5_amended_idempotent "hello  world" (by decide)
